import Mathlib

/-!
# Verification of the Adaptive RAG decision core

A shallow embedding of `reinforcement_learning.py`, `query_clustering.py`
and the decision branch of `rag.py`.  Python dicts with meaningful insertion
order are modelled as association lists, float rewards as rationals, the UCB
scores (which mix `sqrt`/`log` with `float('inf')`) as extended reals, and
each random draw or external-oracle response as an explicit argument.
-/

namespace AdaptiveRag

/-! ## Strategy statistics (`reinforcement_learning.py`) -/

/-- One strategy's global statistics (`{"wins": 0, "total": 0, "reward_sum": 0.0}`). -/
structure StrategyStats where
  wins : Nat
  total : Nat
  reward_sum : ℚ
deriving Repr, DecidableEq

/-- The fixed strategy set, in the order of `self.strategies`. -/
def strategies : List String :=
  ["concise", "detailed", "structured", "example_driven", "analytical"]

/-- `self.epsilon = 0.2`. -/
def epsilon : ℚ := 2/10

/-- The `k_values` lookup table with default 4 (`k_values.get(strategy, 4)`). -/
def kValues (s : String) : Nat :=
  if s = "concise" then 3
  else if s = "detailed" then 5
  else if s = "structured" then 4
  else if s = "example_driven" then 4
  else if s = "analytical" then 6
  else 4

/-- The fresh statistics table from `_load_strategy_stats` when no file exists. -/
def initStrategyStats : String → StrategyStats := fun _ => ⟨0, 0, 0⟩

/-- One entry of the feedback log built by `record_feedback`. -/
structure FeedbackEntry where
  timestamp : String
  query : String
  strategy : String
  response : String
  feedback : Int
  reward : ℚ
  retrieved_docs : List String
  cluster : Option String
deriving Repr, DecidableEq

/-- The learner's mutable state: the per-strategy statistics table and the
append-only feedback history. -/
structure RLState where
  strategy_stats : String → StrategyStats
  feedback_history : List FeedbackEntry

/-- The learner's state right after `__init__` with no persisted files. -/
def initRLState : RLState :=
  { strategy_stats := initStrategyStats, feedback_history := [] }

/-- `record_feedback`: derive the reward, append the (truncated) feedback
entry, and bump the named strategy's counters.  `now` stands for
`datetime.now().isoformat()`. -/
def record_feedback (st : RLState) (now query strategy response : String)
    (feedback : Int) (retrieved_docs : List String) (cluster_name : Option String) :
    RLState :=
  let reward : ℚ := if 0 < feedback then 1 else -1
  let entry : FeedbackEntry :=
    { timestamp := now
      query := query
      strategy := strategy
      response := response.take 200
      feedback := feedback
      reward := reward
      retrieved_docs := retrieved_docs.take 2
      cluster := cluster_name }
  { strategy_stats := fun s =>
      if s = strategy then
        let old := st.strategy_stats s
        { wins := if 0 < reward then old.wins + 1 else old.wins
          total := old.total + 1
          reward_sum := old.reward_sum + reward }
      else st.strategy_stats s
    feedback_history := st.feedback_history ++ [entry] }

/-! ## Word sets and similarity

The embedding re-implements the handful of Python string helpers it needs by
structural recursion over the character list, so that the kernel can evaluate
them on concrete inputs (the core library's string functions use well-founded
position loops, which the kernel cannot reduce).  `toLowerL` lowers ASCII
letters, which is all the repository's inputs use. -/

/-- `text.lower()`. -/
def toLowerL (s : String) : String := ⟨s.data.map Char.toLower⟩

/-- `text.upper()`. -/
def toUpperL (s : String) : String := ⟨s.data.map Char.toUpper⟩

/-- `text.strip()`. -/
def trimL (s : String) : String :=
  ⟨((s.data.dropWhile Char.isWhitespace).reverse.dropWhile
      Char.isWhitespace).reverse⟩

/-- `text.startswith(pre)`. -/
def startsWithL (s pre : String) : Bool := pre.data.isPrefixOf s.data

/-- Split at every separator character, keeping empty pieces
(the semantics of `text.split('\n')` and of `String.split`). -/
def splitPred (p : Char → Bool) : List Char → List (List Char)
  | [] => [[]]
  | x :: rest =>
    match splitPred p rest with
    | [] => [[]]
    | w :: ws => if p x then [] :: w :: ws else (x :: w) :: ws

/-- Left-to-right non-overlapping replacement, with fuel for termination;
`fuel = length of the text` always suffices since every step consumes at
least one character. -/
def replaceAux (pat repl : List Char) : Nat → List Char → List Char
  | _, [] => []
  | 0, l => l
  | fuel + 1, c :: rest =>
    if pat.isPrefixOf (c :: rest) then
      repl ++ replaceAux pat repl fuel (List.drop (pat.length - 1) rest)
    else c :: replaceAux pat repl fuel rest

/-- `text.replace(pat, repl)` (identity on an empty pattern, like
`String.replace`). -/
def replaceL (s pat repl : String) : String :=
  if pat.data = [] then s
  else ⟨replaceAux pat.data repl.data s.data.length s.data⟩

/-- Does `pat` occur as a prefix of some suffix of the text? -/
def containsAux (pat : List Char) : List Char → Bool
  | [] => pat.isPrefixOf []
  | c :: rest => pat.isPrefixOf (c :: rest) || containsAux pat rest

/-- `pat in text` (substring containment). -/
def containsL (s pat : String) : Bool := containsAux pat.data s.data

/-- Python's `text.split()`: split on whitespace, drop empties, as a set. -/
def pyWords (s : String) : Finset String :=
  (((splitPred (fun c => c.isWhitespace) s.data).map String.mk).filter
    (fun w => w ≠ "")).toFinset

/-- `_calculate_similarity`: Jaccard word-overlap of the two texts. -/
def calculate_similarity (text1 text2 : String) : ℚ :=
  let words1 := pyWords text1
  let words2 := pyWords text2
  if words1 = ∅ ∨ words2 = ∅ then 0
  else
    let inter := words1 ∩ words2
    let union := words1 ∪ words2
    if union ≠ ∅ then (inter.card : ℚ) / (union.card : ℚ) else 0

/-- One record of `get_query_improvement`'s `similar_queries` list. -/
structure SimilarQuery where
  query : String
  strategy : String
  feedback : Int
  timestamp : String
deriving Repr, DecidableEq

/-- The dict returned by `get_query_improvement`. -/
structure ImprovementInfo where
  has_similar : Bool
  similar_queries : List SimilarQuery
  learning_active : Bool
deriving Repr, DecidableEq

/-- Python's `l[-n:]`. -/
def lastN {α : Type} (l : List α) (n : Nat) : List α := l.drop (l.length - n)

/-- The filter body of `get_query_improvement`'s loop: keep an entry whose
past query is similar (strictly above 0.6) to the current query. -/
def improvementPick (current_query : String) (e : FeedbackEntry) : Option SimilarQuery :=
  if 6/10 < calculate_similarity (toLowerL current_query) (toLowerL e.query) then
    some ⟨e.query, e.strategy, e.feedback, e.timestamp⟩
  else none

/-- `get_query_improvement`: scan the last 20 feedback entries for similar
queries and surface at most the 3 most recent. -/
def get_query_improvement (history : List FeedbackEntry) (current_query : String) :
    ImprovementInfo :=
  let similar_queries := (lastN history 20).filterMap (improvementPick current_query)
  { has_similar := decide (0 < similar_queries.length)
    similar_queries := lastN similar_queries 3
    learning_active := decide (0 < similar_queries.length) }

/-! ## Query clustering (`query_clustering.py`)

Python dicts keep insertion order, which the cluster tie-breaks depend on,
so both the cluster map and each cluster's `strategy_performance` map are
association lists. -/

/-- One strategy's per-cluster counters (`{'total': 0, 'reward_sum': 0.0}`). -/
structure ClusterPerf where
  total : Nat
  reward_sum : ℚ
deriving Repr, DecidableEq

/-- One cluster: its query list and per-strategy performance map. -/
structure ClusterData where
  queries : List String
  strategy_performance : List (String × ClusterPerf)
deriving Repr, DecidableEq

/-- The cluster map `self.clusters`, in insertion order. -/
abbrev Clusters := List (String × ClusterData)

/-- Ordered-dict lookup. -/
def alookup {β : Type} : List (String × β) → String → Option β
  | [], _ => none
  | (k', v) :: rest, k => if k' = k then some v else alookup rest k

/-- Ordered-dict in-place update of an existing key (first occurrence). -/
def aupdate {β : Type} : List (String × β) → String → (β → β) → List (String × β)
  | [], _, _ => []
  | (k', v) :: rest, k, f =>
    if k' = k then (k', f v) :: rest else (k', v) :: aupdate rest k f

/-- Python's `d[k] = v`: overwrite in place when the key exists, else append. -/
def aset {β : Type} (l : List (String × β)) (k : String) (v : β) : List (String × β) :=
  if (alookup l k).isSome then aupdate l k (fun _ => v) else l ++ [(k, v)]

/-- Word overlap used by the clustering fallbacks:
`len(set(query.lower().split()) & set(other.lower().split()))`. -/
def wordOverlap (query_words : Finset String) (other : String) : Nat :=
  (query_words ∩ pyWords (toLowerL other)).card

/-- Inner loop of `_fallback_cluster` over one cluster's queries: keep the
running `(best_match, best_score)`, replacing only on strictly larger overlap. -/
def fallbackScanQueries (query_words : Finset String) (group_name : String)
    (acc : Option String × Nat) (qs : List String) : Option String × Nat :=
  qs.foldl
    (fun acc q =>
      let overlap := wordOverlap query_words q
      if acc.2 < overlap then (some group_name, overlap) else acc)
    acc

/-- Outer loop of `_fallback_cluster` over all clusters. -/
def fallbackScan (query_words : Finset String) (clusters : Clusters) :
    Option String × Nat :=
  clusters.foldl (fun acc gd => fallbackScanQueries query_words gd.1 acc gd.2.queries)
    (none, 0)

/-- `_fallback_cluster`: deterministic keyword-matching assignment, returning
the updated cluster map with `(cluster_name, is_new)`.  The `getD ""` default
is unreachable: a best score `≥ 2 > 0` forces `best_match` to be set. -/
def fallback_cluster (clusters : Clusters) (query : String) :
    Clusters × String × Bool :=
  let query_words := pyWords (toLowerL query)
  let best := fallbackScan query_words clusters
  if 2 ≤ best.2 then
    let g := best.1.getD ""
    (aupdate clusters g (fun d => { d with queries := d.queries ++ [query] }), g, false)
  else
    let new_group := "cluster_" ++ toString clusters.length
    (aset clusters new_group ⟨[query], []⟩, new_group, true)

/-- Lines 82–92 of `assign_cluster`: given the cleaned group name, create the
cluster or append the query when it is not already present verbatim. -/
def assign_to_group (clusters : Clusters) (query group_name : String) :
    Clusters × String × Bool :=
  let is_new := (alookup clusters group_name).isNone
  if is_new then
    (clusters ++ [(group_name, ⟨[query], []⟩)], group_name, true)
  else
    (aupdate clusters group_name
        (fun d => if query ∈ d.queries then d
                  else { d with queries := d.queries ++ [query] }),
      group_name, false)

/-- Parse the oracle's reply: the first line starting with `GROUP:`, with
that marker removed everywhere and the rest stripped. -/
def parseGroup (content : String) : Option String :=
  ((splitPred (fun c => c = '\n') content.data).map String.mk).findSome?
    (fun line =>
      if startsWithL line "GROUP:" then some (trimL (replaceL line "GROUP:" ""))
      else none)

/-- Lines 65–80 of `assign_cluster`: strip the content, extract the group
name (synthesising `cluster_<n>` when absent or empty), lowercase it and
replace spaces with underscores. -/
def cleanGroupName (clusters : Clusters) (content : String) : String :=
  let parsed := (parseGroup (trimL content)).getD ""
  let group_name := if parsed = "" then "cluster_" ++ toString clusters.length else parsed
  replaceL (toLowerL group_name) " " "_"

/-- `assign_cluster`: the oracle path when the oracle answers with `content`,
the `_fallback_cluster` path when it fails (`oracle = none`). -/
def assign_cluster (clusters : Clusters) (query : String) (oracle : Option String) :
    Clusters × String × Bool :=
  match oracle with
  | some content => assign_to_group clusters query (cleanGroupName clusters content)
  | none => fallback_cluster clusters query

/-- One step of `get_best_strategy_for_cluster`'s loop: the running
`(best_strategy, best_avg_reward)`, starting from `(None, -inf)` and
replacing only on strictly larger average. -/
def bestStep (acc : Option String × WithBot ℚ) (p : String × ClusterPerf) :
    Option String × WithBot ℚ :=
  if 0 < p.2.total then
    let avg : ℚ := p.2.reward_sum / (p.2.total : ℚ)
    if acc.2 < (avg : WithBot ℚ) then (some p.1, (avg : WithBot ℚ)) else acc
  else acc

/-- `get_best_strategy_for_cluster`: best average-reward strategy of the
cluster, only when that average is strictly positive. -/
def get_best_strategy_for_cluster (clusters : Clusters) (cluster_name : String) :
    Option String :=
  match alookup clusters cluster_name with
  | none => none
  | some data =>
    if data.strategy_performance.isEmpty then none
    else
      let r := data.strategy_performance.foldl bestStep (none, ⊥)
      if (0 : WithBot ℚ) < r.2 then r.1 else none

/-- `record_strategy_performance`: no-op on an unknown cluster, else bump the
strategy's per-cluster counters (creating them at zero first). -/
def record_strategy_performance (clusters : Clusters) (cluster_name strategy : String)
    (reward : ℚ) : Clusters :=
  match alookup clusters cluster_name with
  | none => clusters
  | some _ =>
    aupdate clusters cluster_name (fun d =>
      let perf := if (alookup d.strategy_performance strategy).isSome
                  then d.strategy_performance
                  else d.strategy_performance ++ [(strategy, ⟨0, 0⟩)]
      { d with strategy_performance :=
          aupdate perf strategy (fun p =>
            { total := p.total + 1, reward_sum := p.reward_sum + reward }) })

/-- Is `"SIMILAR"` a substring (Python's `'SIMILAR' in result`)? -/
def mentionsSimilar (content : String) : Bool :=
  containsL (toUpperL (trimL content)) "SIMILAR"

/-- `is_similar_to_cluster`: guard on unknown cluster and empty query list,
then judge the query against the cluster's most recent query, by the oracle
when it answers and by word overlap `≥ 2` when it fails. -/
def is_similar_to_cluster (clusters : Clusters)
    (oracle : String → String → Option String) (query cluster_name : String) : Bool :=
  match alookup clusters cluster_name with
  | none => false
  | some data =>
    match data.queries.getLast? with
    | none => false
    | some representative =>
      match oracle query representative with
      | some content => mentionsSimilar content
      | none =>
        decide (2 ≤ (pyWords (toLowerL query) ∩
          pyWords (toLowerL representative)).card)

/-! ## Strategy selection (`select_strategy`)

`np.argmax` returns the index of the first occurrence of the maximum, and
`float('inf')` sits above every finite score, so the score list lives in
`EReal` and the argmax is a fold replacing its candidate only on a strictly
larger value. -/

/-- The fold behind `np.argmax`: walk the remaining scores carrying the best
`(value, index)` seen so far and the index of the next element. -/
def argmaxAux {α : Type} [LinearOrder α] : List α → α × Nat → Nat → α × Nat
  | [], acc, _ => acc
  | x :: xs, (b, bi), i =>
    if b < x then argmaxAux xs (x, i) (i + 1) else argmaxAux xs (b, bi) (i + 1)

/-- `np.argmax`: index of the first occurrence of the maximum (0 on `[]`). -/
def argmaxIdx {α : Type} [LinearOrder α] : List α → Nat
  | [] => 0
  | x :: xs => (argmaxAux xs (x, 0) 1).2

/-- `total_pulls = sum(self.strategy_stats[s]["total"] for s in self.strategies)`. -/
def total_pulls (stats : String → StrategyStats) : Nat :=
  (strategies.map (fun s => (stats s).total)).sum

/-- One strategy's UCB score: `+inf` when never used, else the average reward
plus the exploration bonus `sqrt(2*ln(total_pulls+1)/total)`. -/
noncomputable def ucbScore (stats : String → StrategyStats) (tp : Nat) (s : String) :
    EReal :=
  let n := (stats s).total
  if n = 0 then ⊤
  else (((((stats s).reward_sum : ℝ) / (n : ℝ)) +
          Real.sqrt (2 * Real.log ((tp : ℝ) + 1) / (n : ℝ)) : ℝ) : EReal)

/-- Lines 68–96 of `select_strategy`: the epsilon-greedy draw (`rEps` is the
`np.random.random()` draw, `exploreIdx` the uniform choice) followed by the
UCB exploitation branch, then the `top_k` lookup. -/
noncomputable def selectEpsilonUCB (stats : String → StrategyStats) (rEps : ℚ)
    (exploreIdx : Fin strategies.length) : String × Nat :=
  if rEps < epsilon then
    let strategy := strategies.get exploreIdx
    (strategy, kValues strategy)
  else
    let ucb_scores := strategies.map (ucbScore stats (total_pulls stats))
    let strategy := strategies.getD (argmaxIdx ucb_scores) ""
    (strategy, kValues strategy)

/-- `select_strategy`: the cluster-bias branch (lines 53–66, with `rCluster`
the Bernoulli draw against 0.7) falling through to `selectEpsilonUCB`. -/
noncomputable def select_strategy (stats : String → StrategyStats)
    (cluster_best_strategy : Option String) (rCluster rEps : ℚ)
    (exploreIdx : Fin strategies.length) : String × Nat :=
  match cluster_best_strategy with
  | some s =>
    if s ∈ strategies then
      let cluster_stats := stats s
      if 3 ≤ cluster_stats.total then
        if 3/10 < cluster_stats.reward_sum / (cluster_stats.total : ℚ) then
          if rCluster < 7/10 then (s, kValues s)
          else selectEpsilonUCB stats rEps exploreIdx
        else selectEpsilonUCB stats rEps exploreIdx
      else selectEpsilonUCB stats rEps exploreIdx
    else selectEpsilonUCB stats rEps exploreIdx
  | none => selectEpsilonUCB stats rEps exploreIdx

/-! ## The orchestrator's query branch (`rag.py`, lines 92–128) -/

/-- A value of the metadata dict returned by `AdaptiveRAG.query`. -/
inductive MVal where
  | s (v : String)
  | n (v : Nat)
  | b (v : Bool)
  | ls (v : List String)
  | imp (v : ImprovementInfo)
  | cinfo (v : List (String × String))
deriving Repr, DecidableEq

/-- The response `AdaptiveRAG.query` returns once retrieval has run: the
fixed no-information answer with its metadata when nothing was retrieved,
else the generation oracle's answer (`llm_answer`) with full metadata.
`retrieved_docs` holds the contents of the retrieved documents and
`cluster_info` the dict from `get_cluster_info`, passed through. -/
def rag_query_response (cluster_name : String) (is_new_cluster : Bool)
    (query_complexity strategy : String) (top_k : Nat)
    (improvement_info : ImprovementInfo) (cluster_info : List (String × String))
    (cluster_best_strategy : Option String) (retrieved_docs : List String)
    (llm_answer : String) : String × List (String × MVal) :=
  if retrieved_docs.isEmpty then
    ("I couldn't find relevant information to answer your question.",
      [("strategy", .s strategy),
       ("retrieved_docs", .ls []),
       ("complexity", .s query_complexity),
       ("improvement_info", .imp improvement_info),
       ("cluster_name", .s cluster_name),
       ("cluster_info", .cinfo cluster_info),
       ("is_new_cluster", .b is_new_cluster)])
  else
    (llm_answer,
      [("strategy", .s strategy),
       ("top_k", .n top_k),
       ("retrieved_docs", .ls (retrieved_docs.map (fun d => d.take 100))),
       ("complexity", .s query_complexity),
       ("improvement_info", .imp improvement_info),
       ("cluster_name", .s cluster_name),
       ("cluster_info", .cinfo cluster_info),
       ("is_new_cluster", .b is_new_cluster),
       ("used_cluster_strategy", .b (decide (some strategy = cluster_best_strategy)))])

/-! ## Theorems -/

/-- The claimed invariant on every strategy's statistics. -/
def StatsInv (st : RLState) : Prop :=
  ∀ s, (st.strategy_stats s).wins ≤ (st.strategy_stats s).total ∧
    ((st.strategy_stats s).total = 0 → (st.strategy_stats s).reward_sum = 0)

lemma record_feedback_stats (st : RLState) (now query strategy response : String)
    (feedback : Int) (docs : List String) (cluster_name : Option String) :
    (∀ s, s ≠ strategy →
      (record_feedback st now query strategy response feedback docs
          cluster_name).strategy_stats s = st.strategy_stats s) ∧
    ((record_feedback st now query strategy response feedback docs
        cluster_name).strategy_stats strategy).total =
      (st.strategy_stats strategy).total + 1 ∧
    ((record_feedback st now query strategy response feedback docs
        cluster_name).strategy_stats strategy).reward_sum =
      (st.strategy_stats strategy).reward_sum + (if 0 < feedback then 1 else -1) ∧
    ((record_feedback st now query strategy response feedback docs
        cluster_name).strategy_stats strategy).wins =
      (st.strategy_stats strategy).wins + (if 0 < feedback then 1 else 0) := by
  refine ⟨fun s hs => ?_, ?_, ?_, ?_⟩
  · by_cases hf : 0 < feedback <;> simp [record_feedback, hf, hs]
  all_goals by_cases hf : 0 < feedback <;> simp [record_feedback, hf]

/-- C4: `record_feedback` derives reward `+1` iff feedback is positive and
`-1` otherwise, appends exactly one feedback entry with the response cut to
200 characters and at most 2 snippets, and bumps exactly the named strategy's
counters, incrementing `wins` iff the reward is positive. -/
theorem C4_record_feedback (st : RLState) (now query strategy response : String)
    (feedback : Int) (docs : List String) (cluster_name : Option String) :
    (record_feedback st now query strategy response feedback docs
        cluster_name).feedback_history =
      st.feedback_history ++
        [{ timestamp := now, query := query, strategy := strategy,
           response := response.take 200, feedback := feedback,
           reward := if 0 < feedback then 1 else -1,
           retrieved_docs := docs.take 2, cluster := cluster_name }] ∧
    (∀ s, s ≠ strategy →
      (record_feedback st now query strategy response feedback docs
          cluster_name).strategy_stats s = st.strategy_stats s) ∧
    ((record_feedback st now query strategy response feedback docs
        cluster_name).strategy_stats strategy).total =
      (st.strategy_stats strategy).total + 1 ∧
    ((record_feedback st now query strategy response feedback docs
        cluster_name).strategy_stats strategy).reward_sum =
      (st.strategy_stats strategy).reward_sum + (if 0 < feedback then 1 else -1) ∧
    ((record_feedback st now query strategy response feedback docs
        cluster_name).strategy_stats strategy).wins =
      (st.strategy_stats strategy).wins + (if 0 < feedback then 1 else 0) := by
  obtain ⟨h1, h2, h3, h4⟩ :=
    record_feedback_stats st now query strategy response feedback docs cluster_name
  exact ⟨rfl, h1, h2, h3, h4⟩

/-- C3: the invariant `wins ≤ total ∧ (total = 0 → reward_sum = 0)` holds on
the fresh statistics table, is preserved by `record_feedback` — the only
operation that writes the counters — and `record_feedback` never decrements
`wins` or `total`. -/
theorem C3_stats_invariant :
    StatsInv initRLState ∧
    (∀ st now query strategy response feedback docs cluster_name,
      StatsInv st →
        StatsInv (record_feedback st now query strategy response feedback docs
          cluster_name)) ∧
    (∀ st now query strategy response feedback docs cluster_name s,
      (st.strategy_stats s).wins ≤
        ((record_feedback st now query strategy response feedback docs
            cluster_name).strategy_stats s).wins ∧
      (st.strategy_stats s).total ≤
        ((record_feedback st now query strategy response feedback docs
            cluster_name).strategy_stats s).total) := by
  refine ⟨fun s => ⟨le_refl 0, fun _ => rfl⟩, ?_, ?_⟩
  · intro st now query strategy response feedback docs cluster_name h s
    obtain ⟨hother, htot, -, hwins⟩ :=
      record_feedback_stats st now query strategy response feedback docs cluster_name
    by_cases hs : s = strategy
    · subst hs
      rcases h s with ⟨h1, -⟩
      refine ⟨?_, ?_⟩
      · rw [htot, hwins]; split <;> omega
      · rw [htot]; omega
    · rw [hother s hs]; exact h s
  · intro st now query strategy response feedback docs cluster_name s
    obtain ⟨hother, htot, -, hwins⟩ :=
      record_feedback_stats st now query strategy response feedback docs cluster_name
    by_cases hs : s = strategy
    · subst hs
      refine ⟨?_, ?_⟩
      · rw [hwins]; split <;> omega
      · rw [htot]; omega
    · rw [hother s hs]; exact ⟨le_refl _, le_refl _⟩

lemma lastN_length {α : Type} (l : List α) (n : Nat) :
    (lastN l n).length = min n l.length := by
  unfold lastN
  rw [List.length_drop]
  omega

lemma lastN_of_le {α : Type} {l : List α} {n : Nat} (h : l.length ≤ n) :
    lastN l n = l := by
  unfold lastN
  have : l.length - n = 0 := by omega
  rw [this, List.drop_zero]

lemma lastN_lastN {α : Type} (l : List α) (n : Nat) :
    lastN (lastN l n) n = lastN l n :=
  lastN_of_le (by rw [lastN_length]; omega)

lemma lastN_suffix {α : Type} (l : List α) (n : Nat) : lastN l n <:+ l :=
  List.drop_suffix _ _

lemma improvementPick_eq_none (current_query : String) (e : FeedbackEntry) :
    improvementPick current_query e = none ↔
      ¬ 6/10 < calculate_similarity (toLowerL current_query) (toLowerL e.query) := by
  unfold improvementPick
  split <;> simp_all

/-- C8: `get_query_improvement` looks only at the most recent 20 feedback
entries, keeps exactly those whose Jaccard word-overlap similarity with the
current query is strictly above 0.6, returns the at most 3 most recent
matches in chronological order, and raises both flags iff a match exists. -/
theorem C8_query_improvement (history : List FeedbackEntry) (current_query : String) :
    get_query_improvement history current_query =
      get_query_improvement (lastN history 20) current_query ∧
    ((get_query_improvement history current_query).has_similar = true ↔
      ∃ e ∈ lastN history 20,
        6/10 < calculate_similarity (toLowerL current_query) (toLowerL e.query)) ∧
    (get_query_improvement history current_query).learning_active =
      (get_query_improvement history current_query).has_similar ∧
    (get_query_improvement history current_query).similar_queries =
      lastN ((lastN history 20).filterMap (improvementPick current_query)) 3 ∧
    (get_query_improvement history current_query).similar_queries.length =
      min 3 ((lastN history 20).filterMap (improvementPick current_query)).length ∧
    (get_query_improvement history current_query).similar_queries <:+
      (lastN history 20).filterMap (improvementPick current_query) ∧
    (∀ t1 t2 : String, pyWords t1 ≠ ∅ → pyWords t2 ≠ ∅ →
      calculate_similarity t1 t2 =
        ((pyWords t1 ∩ pyWords t2).card : ℚ) / ((pyWords t1 ∪ pyWords t2).card : ℚ)) := by
  refine ⟨?_, ?_, rfl, rfl, lastN_length _ _, lastN_suffix _ _, ?_⟩
  · unfold get_query_improvement
    rw [lastN_lastN]
  · unfold get_query_improvement
    simp only [decide_eq_true_eq, List.length_pos, ne_eq, List.filterMap_eq_nil_iff]
    push_neg
    constructor
    · rintro ⟨e, he, hpick⟩
      exact ⟨e, he, by
        rcases (not_iff_not.mpr (improvementPick_eq_none current_query e)).mp hpick
          with h
        exact not_not.mp h⟩
    · rintro ⟨e, he, hsim⟩
      exact ⟨e, he,
        (not_iff_not.mpr (improvementPick_eq_none current_query e)).mpr
          (not_not.mpr hsim)⟩
  · intro t1 t2 h1 h2
    unfold calculate_similarity
    have hu : pyWords t1 ∪ pyWords t2 ≠ ∅ := by
      rw [ne_eq, Finset.union_eq_empty]
      exact fun ⟨a, _⟩ => h1 a
    simp [h1, h2, hu]

/-- C10: `is_similar_to_cluster` answers `false` — for every oracle, so
without consulting it — when the cluster is unknown or its query list is
empty; otherwise its verdict is a function of the oracle's answer about the
cluster's most-recently-added query alone. -/
theorem C10_similarity_guards (clusters : Clusters)
    (oracle : String → String → Option String) (query cluster_name : String) :
    (alookup clusters cluster_name = none →
      is_similar_to_cluster clusters oracle query cluster_name = false) ∧
    (∀ data, alookup clusters cluster_name = some data → data.queries = [] →
      is_similar_to_cluster clusters oracle query cluster_name = false) ∧
    (∀ data representative, alookup clusters cluster_name = some data →
      data.queries.getLast? = some representative →
      (is_similar_to_cluster clusters oracle query cluster_name =
        match oracle query representative with
        | some content => mentionsSimilar content
        | none =>
          decide (2 ≤ (pyWords (toLowerL query) ∩
            pyWords (toLowerL representative)).card)) ∧
      (∀ oracle2 : String → String → Option String,
        oracle2 query representative = oracle query representative →
        is_similar_to_cluster clusters oracle2 query cluster_name =
          is_similar_to_cluster clusters oracle query cluster_name)) := by
  refine ⟨?_, ?_, ?_⟩
  · intro h
    simp [is_similar_to_cluster, h]
  · intro data h hq
    simp [is_similar_to_cluster, h, hq]
  · intro data representative h hrep
    refine ⟨?_, ?_⟩
    · simp [is_similar_to_cluster, h, hrep]
    · intro oracle2 hsame
      simp [is_similar_to_cluster, h, hrep, hsame]

/-- C9 counterexample: on a query with no retrieved documents the code does
return the fixed no-information response, but the metadata it returns is not
empty — it still carries the strategy, complexity, improvement and cluster
fields. -/
theorem C9_counterexample :
    (rag_query_response "cluster_0" true "moderate" "concise" 3
        ⟨false, [], false⟩ [] none [] "ANSWER").1 =
      "I couldn't find relevant information to answer your question." ∧
    (rag_query_response "cluster_0" true "moderate" "concise" 3
        ⟨false, [], false⟩ [] none [] "ANSWER").2 ≠ [] := by
  exact ⟨rfl, by simp [rag_query_response]⟩

/-- C9 (amended): with no retrieved documents, `query` returns the fixed
no-information response, skips external generation (the result does not
depend on the generation oracle's answer), and its metadata carries an empty
`retrieved_docs` list — though the metadata dict itself is populated. -/
theorem C9_empty_retrieval (cluster_name : String) (is_new_cluster : Bool)
    (query_complexity strategy : String) (top_k : Nat)
    (improvement_info : ImprovementInfo) (cluster_info : List (String × String))
    (cluster_best_strategy : Option String) (llm_answer : String) :
    rag_query_response cluster_name is_new_cluster query_complexity strategy top_k
        improvement_info cluster_info cluster_best_strategy [] llm_answer =
      ("I couldn't find relevant information to answer your question.",
       [("strategy", .s strategy),
        ("retrieved_docs", .ls []),
        ("complexity", .s query_complexity),
        ("improvement_info", .imp improvement_info),
        ("cluster_name", .s cluster_name),
        ("cluster_info", .cinfo cluster_info),
        ("is_new_cluster", .b is_new_cluster)]) ∧
    (∀ other_answer : String,
      rag_query_response cluster_name is_new_cluster query_complexity strategy top_k
          improvement_info cluster_info cluster_best_strategy [] other_answer =
        rag_query_response cluster_name is_new_cluster query_complexity strategy top_k
          improvement_info cluster_info cluster_best_strategy [] llm_answer) :=
  ⟨rfl, fun _ => rfl⟩

/-- Every cluster's query list is free of exact duplicates. -/
def NoDupQueries (clusters : Clusters) : Prop :=
  ∀ gd ∈ clusters, gd.2.queries.Nodup

lemma aupdate_mem {β : Type} (l : List (String × β)) (k : String) (f : β → β) :
    ∀ x ∈ aupdate l k f, x ∈ l ∨ ∃ y ∈ l, x = (y.1, f y.2) := by
  induction l with
  | nil => simp [aupdate]
  | cons hd tl ih =>
    intro x hx
    obtain ⟨k', v⟩ := hd
    by_cases hk : k' = k
    · rw [aupdate, if_pos hk] at hx
      rcases List.mem_cons.mp hx with h | h
      · exact Or.inr ⟨(k', v), List.mem_cons_self _ _, h⟩
      · exact Or.inl (List.mem_cons_of_mem _ h)
    · rw [aupdate, if_neg hk] at hx
      rcases List.mem_cons.mp hx with h | h
      · exact Or.inl (h ▸ List.mem_cons_self _ _)
      · rcases ih x h with h' | ⟨y, hy, hxy⟩
        · exact Or.inl (List.mem_cons_of_mem _ h')
        · exact Or.inr ⟨y, List.mem_cons_of_mem _ hy, hxy⟩

/-- C7 counterexample: with the oracle down, assigning the query
`"alpha beta"` to a cluster that already contains it verbatim appends it a
second time — the fallback path has no duplicate check. -/
theorem C7_counterexample :
    (assign_cluster [("cluster_0", ⟨["alpha beta"], []⟩)] "alpha beta" none).1 =
      [("cluster_0", ⟨["alpha beta", "alpha beta"], []⟩)] ∧
    ¬ (["alpha beta", "alpha beta"] : List String).Nodup := by
  refine ⟨by decide, by simp⟩

/-- C7 (amended): on the oracle path `assign_cluster` never appends a query
already present verbatim, so it preserves duplicate-freeness of every
cluster's query list; the fallback path taken on oracle failure lacks that
check and can append a duplicate. -/
theorem C7_oracle_path_nodup (clusters : Clusters) (query content : String)
    (h : NoDupQueries clusters) :
    NoDupQueries (assign_cluster clusters query (some content)).1 := by
  show NoDupQueries (assign_to_group clusters query
    (cleanGroupName clusters content)).1
  set g := cleanGroupName clusters content with hg
  unfold assign_to_group
  by_cases hnew : (alookup clusters g).isNone
  · simp only [hnew, if_pos]
    intro gd hgd
    rcases List.mem_append.mp hgd with hmem | hmem
    · exact h gd hmem
    · rcases List.mem_singleton.mp hmem with rfl
      exact List.nodup_singleton _
  · simp only [hnew, if_neg, Bool.false_eq_true, not_false_eq_true]
    intro gd hgd
    rcases aupdate_mem clusters g _ gd hgd with hmem | ⟨y, hy, hxy⟩
    · exact h gd hmem
    · rw [hxy]
      dsimp only
      by_cases hq : query ∈ y.2.queries
      · rw [if_pos hq]
        exact h y hy
      · rw [if_neg hq]
        dsimp only
        rw [List.nodup_append]
        exact ⟨h y hy, List.nodup_singleton _,
          by simpa [List.disjoint_singleton] using hq⟩

/-- C7 witness: a concrete oracle-path assignment out of a duplicate-free
cluster map stays duplicate-free. -/
theorem C7_oracle_path_nodup_witness :
    NoDupQueries (assign_cluster [("tech", ⟨["alpha"], []⟩)] "alpha"
      (some "GROUP: tech")).1 :=
  C7_oracle_path_nodup [("tech", ⟨["alpha"], []⟩)] "alpha" "GROUP: tech"
    (by intro gd hgd; rcases List.mem_singleton.mp hgd with rfl
        exact List.nodup_singleton _)

/-- A performance entry's average reward, inside the order `best_avg_reward`
lives in (`⊥` plays `float('-inf')`). -/
def avgW (p : String × ClusterPerf) : WithBot ℚ :=
  ((p.2.reward_sum / (p.2.total : ℚ) : ℚ) : WithBot ℚ)

lemma bestFold_spec (l : List (String × ClusterPerf)) :
    ∀ acc : Option String × WithBot ℚ,
      (l.foldl bestStep acc = acc ∧
        ∀ p ∈ l, 0 < p.2.total → avgW p ≤ acc.2) ∨
      (∃ l1 p l2, l = l1 ++ p :: l2 ∧ 0 < p.2.total ∧
        l.foldl bestStep acc = (some p.1, avgW p) ∧ acc.2 < avgW p ∧
        (∀ q ∈ l1, 0 < q.2.total → avgW q < avgW p) ∧
        (∀ q ∈ l2, 0 < q.2.total → avgW q ≤ avgW p)) := by
  induction l with
  | nil => exact fun acc => Or.inl ⟨rfl, by simp⟩
  | cons p0 rest ih =>
    intro acc
    rw [List.foldl_cons]
    by_cases h0 : 0 < p0.2.total
    · by_cases hlt : acc.2 < avgW p0
      · have hstep : bestStep acc p0 = (some p0.1, avgW p0) := by
          show (if 0 < p0.2.total then
                  if acc.2 < avgW p0 then (some p0.1, avgW p0) else acc
                else acc) = (some p0.1, avgW p0)
          rw [if_pos h0, if_pos hlt]
        rw [hstep]
        rcases ih (some p0.1, avgW p0) with ⟨heq, hall⟩ |
          ⟨l1, p, l2, hsplit, hp, heq, hgt, hprev, hrest⟩
        · refine Or.inr ⟨[], p0, rest, rfl, h0, heq, hlt, by simp, ?_⟩
          intro q hq hqt
          exact hall q hq hqt
        · refine Or.inr ⟨p0 :: l1, p, l2, by rw [hsplit, List.cons_append], hp, heq,
            lt_trans hlt hgt, ?_, hrest⟩
          intro q hq hqt
          rcases List.mem_cons.mp hq with rfl | hq'
          · exact hgt
          · exact hprev q hq' hqt
      · have hstep : bestStep acc p0 = acc := by
          show (if 0 < p0.2.total then
                  if acc.2 < avgW p0 then (some p0.1, avgW p0) else acc
                else acc) = acc
          rw [if_pos h0, if_neg hlt]
        rw [hstep]
        rcases ih acc with ⟨heq, hall⟩ |
          ⟨l1, p, l2, hsplit, hp, heq, hgt, hprev, hrest⟩
        · refine Or.inl ⟨heq, ?_⟩
          intro q hq hqt
          rcases List.mem_cons.mp hq with rfl | hq'
          · exact not_lt.mp hlt
          · exact hall q hq' hqt
        · refine Or.inr ⟨p0 :: l1, p, l2, by rw [hsplit, List.cons_append], hp, heq, hgt, ?_, hrest⟩
          intro q hq hqt
          rcases List.mem_cons.mp hq with rfl | hq'
          · exact lt_of_le_of_lt (not_lt.mp hlt) hgt
          · exact hprev q hq' hqt
    · have hstep : bestStep acc p0 = acc := by
        show (if 0 < p0.2.total then
                if acc.2 < avgW p0 then (some p0.1, avgW p0) else acc
              else acc) = acc
        rw [if_neg h0]
      rw [hstep]
      rcases ih acc with ⟨heq, hall⟩ |
        ⟨l1, p, l2, hsplit, hp, heq, hgt, hprev, hrest⟩
      · refine Or.inl ⟨heq, ?_⟩
        intro q hq hqt
        rcases List.mem_cons.mp hq with rfl | hq'
        · exact absurd hqt h0
        · exact hall q hq' hqt
      · refine Or.inr ⟨p0 :: l1, p, l2, by rw [hsplit, List.cons_append], hp, heq, hgt, ?_, hrest⟩
        intro q hq hqt
        rcases List.mem_cons.mp hq with rfl | hq'
        · exact absurd hqt h0
        · exact hprev q hq' hqt

/-- C5: `get_best_strategy_for_cluster` returns `none` on an unknown cluster,
an empty performance map, or when every used strategy's average reward is
`≤ 0`; when it returns a strategy, that strategy has been used, its average
reward is strictly positive and is the maximum over used strategies, and it
is the first entry of the performance map reaching that maximum. -/
theorem C5_best_strategy (clusters : Clusters) (cluster_name : String) :
    (alookup clusters cluster_name = none →
      get_best_strategy_for_cluster clusters cluster_name = none) ∧
    (∀ data, alookup clusters cluster_name = some data →
      ((∀ p ∈ data.strategy_performance, 0 < p.2.total →
          p.2.reward_sum / (p.2.total : ℚ) ≤ 0) →
        get_best_strategy_for_cluster clusters cluster_name = none) ∧
      (∀ s, get_best_strategy_for_cluster clusters cluster_name = some s →
        ∃ l1 p l2, data.strategy_performance = l1 ++ p :: l2 ∧ p.1 = s ∧
          0 < p.2.total ∧ 0 < p.2.reward_sum / (p.2.total : ℚ) ∧
          (∀ q ∈ l1, 0 < q.2.total →
            q.2.reward_sum / (q.2.total : ℚ) < p.2.reward_sum / (p.2.total : ℚ)) ∧
          (∀ q ∈ l2, 0 < q.2.total →
            q.2.reward_sum / (q.2.total : ℚ) ≤ p.2.reward_sum / (p.2.total : ℚ)))) := by
  constructor
  · intro h
    simp [get_best_strategy_for_cluster, h]
  · intro data h
    by_cases hemp : data.strategy_performance.isEmpty
    · constructor
      · intro _
        simp [get_best_strategy_for_cluster, h, hemp]
      · intro s hs
        simp [get_best_strategy_for_cluster, h, hemp] at hs
    · have hres : get_best_strategy_for_cluster clusters cluster_name =
          (if (0 : WithBot ℚ) <
              (data.strategy_performance.foldl bestStep (none, ⊥)).2 then
            (data.strategy_performance.foldl bestStep (none, ⊥)).1
          else none) := by
        simp [get_best_strategy_for_cluster, h, hemp]
      constructor
      · intro hall
        rw [hres]
        rcases bestFold_spec data.strategy_performance (none, ⊥) with
          ⟨heq, -⟩ | ⟨l1, p, l2, hsplit, hp, heq, -, -, -⟩
        · rw [heq]
          simp
        · rw [heq]
          have hple : avgW p ≤ ((0 : ℚ) : WithBot ℚ) :=
            WithBot.coe_le_coe.mpr (hall p (hsplit ▸ List.mem_append_right l1
              (List.mem_cons_self p l2)) hp)
          rw [if_neg]
          rw [WithBot.coe_zero] at hple
          exact not_lt.mpr hple
      · intro s hs
        rw [hres] at hs
        rcases bestFold_spec data.strategy_performance (none, ⊥) with
          ⟨heq, -⟩ | ⟨l1, p, l2, hsplit, hp, heq, -, hprev, hrest⟩
        · rw [heq] at hs
          simp at hs
        · rw [heq] at hs
          by_cases hpos : (0 : WithBot ℚ) < avgW p
          · rw [if_pos hpos] at hs
            refine ⟨l1, p, l2, hsplit, by injection hs, hp, ?_, ?_, ?_⟩
            · rw [← WithBot.coe_zero] at hpos
              exact WithBot.coe_lt_coe.mp hpos
            · intro q hq hqt
              exact WithBot.coe_lt_coe.mp (hprev q hq hqt)
            · intro q hq hqt
              exact WithBot.coe_le_coe.mp (hrest q hq hqt)
          · rw [if_neg hpos] at hs
            exact absurd hs (by simp)

lemma scanQueries_spec (query_words : Finset String) (g : String) (qs : List String) :
    ∀ acc : Option String × Nat,
      acc.2 ≤ (fallbackScanQueries query_words g acc qs).2 ∧
      (∀ q ∈ qs, wordOverlap query_words q ≤
        (fallbackScanQueries query_words g acc qs).2) ∧
      (fallbackScanQueries query_words g acc qs = acc ∨
        ((fallbackScanQueries query_words g acc qs).1 = some g ∧
          ∃ q ∈ qs, wordOverlap query_words q =
            (fallbackScanQueries query_words g acc qs).2 ∧
            acc.2 < (fallbackScanQueries query_words g acc qs).2)) := by
  induction qs with
  | nil => exact fun acc => ⟨le_refl _, by simp, Or.inl rfl⟩
  | cons q qs' ih =>
    intro acc
    have hstep : fallbackScanQueries query_words g acc (q :: qs') =
        fallbackScanQueries query_words g
          (if acc.2 < wordOverlap query_words q
           then (some g, wordOverlap query_words q) else acc) qs' := by
      unfold fallbackScanQueries
      rw [List.foldl_cons]
    by_cases hlt : acc.2 < wordOverlap query_words q
    · rw [hstep, if_pos hlt]
      obtain ⟨h1, h2, h3⟩ := ih (some g, wordOverlap query_words q)
      refine ⟨le_trans (le_of_lt hlt) h1, ?_, Or.inr ?_⟩
      · intro q' hq'
        rcases List.mem_cons.mp hq' with rfl | hq''
        · exact h1
        · exact h2 q' hq''
      · rcases h3 with heq | ⟨hg, q', hq', hov, hacc⟩
        · rw [heq]
          exact ⟨rfl, q, List.mem_cons_self _ _, rfl, hlt⟩
        · exact ⟨hg, q', List.mem_cons_of_mem _ hq', hov,
            lt_trans hlt hacc⟩
    · rw [hstep, if_neg hlt]
      obtain ⟨h1, h2, h3⟩ := ih acc
      refine ⟨h1, ?_, ?_⟩
      · intro q' hq'
        rcases List.mem_cons.mp hq' with rfl | hq''
        · exact le_trans (not_lt.mp hlt) h1
        · exact h2 q' hq''
      · rcases h3 with heq | ⟨hg, q', hq', hov, hacc⟩
        · exact Or.inl heq
        · exact Or.inr ⟨hg, q', List.mem_cons_of_mem _ hq', hov, hacc⟩

lemma scanClusters_spec (query_words : Finset String) (cs : Clusters) :
    ∀ acc : Option String × Nat,
      acc.2 ≤ (cs.foldl
        (fun acc gd => fallbackScanQueries query_words gd.1 acc gd.2.queries)
        acc).2 ∧
      (∀ gd ∈ cs, ∀ q ∈ gd.2.queries, wordOverlap query_words q ≤
        (cs.foldl
          (fun acc gd => fallbackScanQueries query_words gd.1 acc gd.2.queries)
          acc).2) ∧
      ((cs.foldl
          (fun acc gd => fallbackScanQueries query_words gd.1 acc gd.2.queries)
          acc) = acc ∨
        ∃ gd ∈ cs,
          (cs.foldl
            (fun acc gd => fallbackScanQueries query_words gd.1 acc gd.2.queries)
            acc).1 = some gd.1 ∧
          ∃ q ∈ gd.2.queries, wordOverlap query_words q =
            (cs.foldl
              (fun acc gd => fallbackScanQueries query_words gd.1 acc gd.2.queries)
              acc).2 ∧
            acc.2 < (cs.foldl
              (fun acc gd => fallbackScanQueries query_words gd.1 acc gd.2.queries)
              acc).2) := by
  induction cs with
  | nil => exact fun acc => ⟨le_refl _, by simp, Or.inl rfl⟩
  | cons gd0 cs' ih =>
    intro acc
    rw [List.foldl_cons]
    obtain ⟨i1, i2, i3⟩ := scanQueries_spec query_words gd0.1 gd0.2.queries acc
    obtain ⟨o1, o2, o3⟩ := ih (fallbackScanQueries query_words gd0.1 acc gd0.2.queries)
    refine ⟨le_trans i1 o1, ?_, ?_⟩
    · intro gd hgd q hq
      rcases List.mem_cons.mp hgd with rfl | hgd'
      · exact le_trans (i2 q hq) o1
      · exact o2 gd hgd' q hq
    · rcases o3 with heq | ⟨gd, hgd, hsome, q, hq, hov, hacc⟩
      · rw [heq]
        rcases i3 with ieq | ⟨ig, q, hq, iov, iacc⟩
        · exact Or.inl ieq
        · exact Or.inr ⟨gd0, List.mem_cons_self _ _, ig, q, hq, iov, iacc⟩
      · exact Or.inr ⟨gd, List.mem_cons_of_mem _ hgd, hsome, q, hq, hov,
          lt_of_le_of_lt i1 hacc⟩

/-- C6: when the oracle fails, `assign_cluster` falls back deterministically:
the fallback computes the word overlap with every query of every cluster;
when the best overlap is at least 2 it appends the query to the matched
cluster — a cluster containing a query attaining that maximal overlap — and
reports `is_new = false`; otherwise it creates `cluster_<n>` (`n` = current
cluster count) seeded with the query and reports `is_new = true`. -/
theorem C6_fallback_clustering (clusters : Clusters) (query : String) :
    assign_cluster clusters query none = fallback_cluster clusters query ∧
    (∀ gd ∈ clusters, ∀ q ∈ gd.2.queries,
      wordOverlap (pyWords (toLowerL query)) q ≤
        (fallbackScan (pyWords (toLowerL query)) clusters).2) ∧
    (2 ≤ (fallbackScan (pyWords (toLowerL query)) clusters).2 →
      ∃ gd ∈ clusters,
        (fallbackScan (pyWords (toLowerL query)) clusters).1 = some gd.1 ∧
        (∃ q ∈ gd.2.queries, wordOverlap (pyWords (toLowerL query)) q =
          (fallbackScan (pyWords (toLowerL query)) clusters).2) ∧
        fallback_cluster clusters query =
          (aupdate clusters gd.1
            (fun d => { d with queries := d.queries ++ [query] }), gd.1, false)) ∧
    ((fallbackScan (pyWords (toLowerL query)) clusters).2 < 2 →
      fallback_cluster clusters query =
        (aset clusters ("cluster_" ++ toString clusters.length) ⟨[query], []⟩,
          "cluster_" ++ toString clusters.length, true)) := by
  obtain ⟨-, h2, h3⟩ :=
    scanClusters_spec (pyWords (toLowerL query)) clusters (none, 0)
  refine ⟨rfl, h2, ?_, ?_⟩
  · intro hbest
    rcases h3 with heq | ⟨gd, hgd, hsome, q, hq, hov, -⟩
    · rw [show fallbackScan (pyWords (toLowerL query)) clusters =
          clusters.foldl (fun acc gd =>
            fallbackScanQueries (pyWords (toLowerL query)) gd.1 acc gd.2.queries)
            (none, 0) from rfl, heq] at hbest
      omega
    · refine ⟨gd, hgd, hsome, ⟨q, hq, hov⟩, ?_⟩
      unfold fallback_cluster
      rw [if_pos hbest]
      have : (fallbackScan (pyWords (toLowerL query)) clusters).1.getD "" = gd.1 := by
        unfold fallbackScan
        rw [hsome]
        rfl
      rw [this]
  · intro hbest
    unfold fallback_cluster
    rw [if_neg (by omega)]

lemma getD_irrel {α : Type} (l : List α) {j : Nat} (h : j < l.length) (d d' : α) :
    l.getD j d = l.getD j d' := by
  rw [List.getD_eq_getElem l d h, List.getD_eq_getElem l d' h]

lemma argmaxAux_spec {α : Type} [LinearOrder α] (xs : List α) :
    ∀ (b : α) (bi i : Nat),
      (argmaxAux xs (b, bi) i = (b, bi) ∧ ∀ j < xs.length, xs.getD j b ≤ b) ∨
      (∃ j, j < xs.length ∧
        argmaxAux xs (b, bi) i = (xs.getD j b, i + j) ∧ b < xs.getD j b ∧
        (∀ j' < j, xs.getD j' b < xs.getD j b) ∧
        (∀ j' < xs.length, xs.getD j' b ≤ xs.getD j b)) := by
  induction xs with
  | nil => exact fun b bi i => Or.inl ⟨rfl, by simp⟩
  | cons x xs' ih =>
    intro b bi i
    have hunf : argmaxAux (x :: xs') (b, bi) i =
        (if b < x then argmaxAux xs' (x, i) (i + 1)
         else argmaxAux xs' (b, bi) (i + 1)) := rfl
    rw [hunf]
    by_cases hlt : b < x
    · rw [if_pos hlt]
      rcases ih x i (i + 1) with ⟨heq, hall⟩ | ⟨j, hj, heq, hgt, hprev, hall⟩
      · refine Or.inr ⟨0, by simp, ?_, ?_, by omega, ?_⟩
        · rw [List.getD_cons_zero, Nat.add_zero]
          exact heq
        · rw [List.getD_cons_zero]
          exact hlt
        · intro j' hj'
          match j', hj' with
          | 0, _ => simp
          | k + 1, hk =>
            rw [List.getD_cons_succ, List.getD_cons_zero]
            have hk' : k < xs'.length := by simpa using hk
            rw [getD_irrel xs' hk' b x]
            exact hall k hk'
      · refine Or.inr ⟨j + 1, by simpa using hj, ?_, ?_, ?_, ?_⟩
        · rw [List.getD_cons_succ, getD_irrel xs' hj b x,
            show i + (j + 1) = i + 1 + j from by omega]
          exact heq
        · rw [List.getD_cons_succ, getD_irrel xs' hj b x]
          exact lt_trans hlt hgt
        · intro j' hj'
          match j', hj' with
          | 0, _ =>
            rw [List.getD_cons_zero, List.getD_cons_succ, getD_irrel xs' hj b x]
            exact hgt
          | k + 1, hk =>
            rw [List.getD_cons_succ, List.getD_cons_succ,
              getD_irrel xs' hj b x]
            have hkj : k < j := by omega
            have hk' : k < xs'.length := lt_trans hkj hj
            rw [getD_irrel xs' hk' b x]
            exact hprev k hkj
        · intro j' hj'
          match j', hj' with
          | 0, _ =>
            rw [List.getD_cons_zero, List.getD_cons_succ, getD_irrel xs' hj b x]
            exact le_of_lt hgt
          | k + 1, hk =>
            rw [List.getD_cons_succ, List.getD_cons_succ, getD_irrel xs' hj b x]
            have hk' : k < xs'.length := by simpa using hk
            rw [getD_irrel xs' hk' b x]
            exact hall k hk'
    · rw [if_neg hlt]
      rcases ih b bi (i + 1) with ⟨heq, hall⟩ | ⟨j, hj, heq, hgt, hprev, hall⟩
      · refine Or.inl ⟨heq, ?_⟩
        intro j' hj'
        match j', hj' with
        | 0, _ =>
          rw [List.getD_cons_zero]
          exact not_lt.mp hlt
        | k + 1, hk =>
          rw [List.getD_cons_succ]
          exact hall k (by simpa using hk)
      · refine Or.inr ⟨j + 1, by simpa using hj, ?_, ?_, ?_, ?_⟩
        · rw [List.getD_cons_succ,
            show i + (j + 1) = i + 1 + j from by omega]
          exact heq
        · rw [List.getD_cons_succ]
          exact hgt
        · intro j' hj'
          match j', hj' with
          | 0, _ =>
            rw [List.getD_cons_zero, List.getD_cons_succ]
            exact lt_of_le_of_lt (not_lt.mp hlt) hgt
          | k + 1, hk =>
            rw [List.getD_cons_succ, List.getD_cons_succ]
            exact hprev k (by omega)
        · intro j' hj'
          match j', hj' with
          | 0, _ =>
            rw [List.getD_cons_zero, List.getD_cons_succ]
            exact le_of_lt (lt_of_le_of_lt (not_lt.mp hlt) hgt)
          | k + 1, hk =>
            rw [List.getD_cons_succ, List.getD_cons_succ]
            exact hall k (by simpa using hk)

lemma argmaxIdx_spec {α : Type} [LinearOrder α] (l : List α) (d : α) (h : l ≠ []) :
    argmaxIdx l < l.length ∧
    (∀ j < l.length, l.getD j d ≤ l.getD (argmaxIdx l) d) ∧
    (∀ j < argmaxIdx l, l.getD j d < l.getD (argmaxIdx l) d) := by
  match l, h with
  | x :: xs, _ =>
    have hunf : argmaxIdx (x :: xs) = (argmaxAux xs (x, 0) 1).2 := rfl
    rcases argmaxAux_spec xs x 0 1 with ⟨heq, hall⟩ | ⟨j, hj, heq, hgt, hprev, hall⟩
    · have hidx : argmaxIdx (x :: xs) = 0 := by rw [hunf, heq]
      rw [hidx]
      refine ⟨by simp, ?_, by omega⟩
      intro j' hj'
      match j', hj' with
      | 0, _ => exact le_refl _
      | k + 1, hk =>
        rw [List.getD_cons_succ, List.getD_cons_zero]
        have hk' : k < xs.length := by simpa using hk
        rw [getD_irrel xs hk' d x]
        exact hall k hk'
    · have hidx : argmaxIdx (x :: xs) = 1 + j := by rw [hunf, heq]
      have hval : (x :: xs).getD (1 + j) d = xs.getD j x := by
        rw [Nat.add_comm, List.getD_cons_succ, getD_irrel xs hj d x]
      rw [hidx]
      refine ⟨by simp; omega, ?_, ?_⟩
      · intro j' hj'
        rw [hval]
        match j', hj' with
        | 0, _ =>
          rw [List.getD_cons_zero]
          exact le_of_lt hgt
        | k + 1, hk =>
          rw [List.getD_cons_succ]
          have hk' : k < xs.length := by simpa using hk
          rw [getD_irrel xs hk' d x]
          exact hall k hk'
      · intro j' hj'
        rw [hval]
        match j', hj' with
        | 0, _ =>
          rw [List.getD_cons_zero]
          exact hgt
        | k + 1, hk =>
          rw [List.getD_cons_succ]
          have hkj : k < j := by omega
          have hk' : k < xs.length := lt_trans hkj hj
          rw [getD_irrel xs hk' d x]
          exact hprev k hkj

/-- C1: whenever the cluster's best strategy is in the fixed set, its global
stats show at least 3 uses and average reward above 0.3, and the Bernoulli
draw lands below 0.7, `select_strategy` returns that strategy with its
`top_k` at once — independently of the exploration draw and choice; if any
of these conditions fails (or no cluster strategy is given), selection is
exactly the epsilon/UCB path. -/
theorem C1_cluster_bias (stats : String → StrategyStats) (s : String)
    (rCluster rEps : ℚ) (exploreIdx : Fin strategies.length) :
    ((s ∈ strategies ∧ 3 ≤ (stats s).total ∧
        3/10 < (stats s).reward_sum / ((stats s).total : ℚ) ∧ rCluster < 7/10) →
      select_strategy stats (some s) rCluster rEps exploreIdx = (s, kValues s)) ∧
    (¬ (s ∈ strategies ∧ 3 ≤ (stats s).total ∧
        3/10 < (stats s).reward_sum / ((stats s).total : ℚ) ∧ rCluster < 7/10) →
      select_strategy stats (some s) rCluster rEps exploreIdx =
        selectEpsilonUCB stats rEps exploreIdx) ∧
    select_strategy stats none rCluster rEps exploreIdx =
      selectEpsilonUCB stats rEps exploreIdx := by
  refine ⟨?_, ?_, rfl⟩
  · rintro ⟨hmem, htot, havg, hr⟩
    simp [select_strategy, hmem, htot, havg, hr]
  · intro h
    by_cases hmem : s ∈ strategies
    · by_cases htot : 3 ≤ (stats s).total
      · by_cases havg : 3/10 < (stats s).reward_sum / ((stats s).total : ℚ)
        · by_cases hr : rCluster < 7/10
          · exact absurd ⟨hmem, htot, havg, hr⟩ h
          · simp [select_strategy, hmem, htot, havg, hr]
        · simp [select_strategy, hmem, htot, havg]
      · simp [select_strategy, hmem, htot]
    · simp [select_strategy, hmem]

/-- C2: in the exploitation branch (taken when the epsilon draw does not
fire), a strategy never used scores `+inf`, a used one scores
`reward_sum/total + sqrt(2*ln(total_pulls+1)/total)`, and the branch returns
the strategy at `np.argmax` of the score list — an index carrying the
maximal score such that every earlier strategy scores strictly less (first
occurrence breaks ties). -/
theorem C2_ucb_selection (stats : String → StrategyStats) :
    (∀ s ∈ strategies, (stats s).total = 0 →
      ucbScore stats (total_pulls stats) s = ⊤) ∧
    (∀ s ∈ strategies, 0 < (stats s).total →
      ucbScore stats (total_pulls stats) s =
        (((((stats s).reward_sum : ℝ) / (((stats s).total : ℕ) : ℝ)) +
          Real.sqrt (2 * Real.log ((total_pulls stats : ℝ) + 1) /
            (((stats s).total : ℕ) : ℝ)) : ℝ) : EReal)) ∧
    (∀ rEps : ℚ, ¬ rEps < epsilon → ∀ exploreIdx : Fin strategies.length,
      selectEpsilonUCB stats rEps exploreIdx =
        (strategies.getD (argmaxIdx (strategies.map
            (ucbScore stats (total_pulls stats)))) "",
          kValues (strategies.getD (argmaxIdx (strategies.map
            (ucbScore stats (total_pulls stats)))) ""))) ∧
    argmaxIdx (strategies.map (ucbScore stats (total_pulls stats))) <
      strategies.length ∧
    (∀ j < strategies.length,
      ucbScore stats (total_pulls stats) (strategies.getD j "") ≤
        ucbScore stats (total_pulls stats) (strategies.getD
          (argmaxIdx (strategies.map (ucbScore stats (total_pulls stats)))) "")) ∧
    (∀ j < argmaxIdx (strategies.map (ucbScore stats (total_pulls stats))),
      ucbScore stats (total_pulls stats) (strategies.getD j "") <
        ucbScore stats (total_pulls stats) (strategies.getD
          (argmaxIdx (strategies.map (ucbScore stats (total_pulls stats)))) "")) := by
  have hlen : (strategies.map (ucbScore stats (total_pulls stats))).length =
      strategies.length := List.length_map _ _
  have hne : strategies.map (ucbScore stats (total_pulls stats)) ≠ [] := by
    simp [strategies]
  obtain ⟨hlt, hmax, hfirst⟩ :=
    argmaxIdx_spec (strategies.map (ucbScore stats (total_pulls stats))) ⊥ hne
  have hklt : argmaxIdx (strategies.map (ucbScore stats (total_pulls stats))) <
      strategies.length := by
    rw [hlen] at hlt
    exact hlt
  have hconv : ∀ j, j < strategies.length →
      (strategies.map (ucbScore stats (total_pulls stats))).getD j ⊥ =
        ucbScore stats (total_pulls stats) (strategies.getD j "") := by
    intro j hj
    rw [List.getD_eq_getElem _ ⊥ (by rw [hlen]; exact hj),
      List.getD_eq_getElem strategies "" hj]
    exact List.getElem_map _
  refine ⟨?_, ?_, ?_, hklt, ?_, ?_⟩
  · intro s hs h0
    simp [ucbScore, h0]
  · intro s hs h0
    simp [ucbScore, Nat.pos_iff_ne_zero.mp h0]
  · intro rEps hr exploreIdx
    simp [selectEpsilonUCB, hr]
  · intro j hj
    have h := hmax j (by rw [hlen]; exact hj)
    rw [hconv j hj, hconv _ hklt] at h
    exact h
  · intro j hj
    have h := hfirst j hj
    have hjlen : j < strategies.length := lt_trans hj hklt
    rw [hconv j hjlen, hconv _ hklt] at h
    exact h

end AdaptiveRag
